import Mathlib

set_option maxRecDepth 100000

/-!
# Verification of the secret-scanning and redaction engine

Shallow embedding of `src/git_filter_repo_mcp/secrets.py`: the pattern
catalog, the content scanner `scan_content`, the redactor `redact_secret`
(which fingerprints with SHA-256), the sensitive-file classifier
`is_sensitive_file` and the risk classifier `get_file_risk_level`.

Conventions:
* Python strings are Lean `String`s; positions and slices are over the
  code-point list `String.data`, matching Python's code-point indexing.
* Machine words in SHA-256 are `Nat` reduced modulo `2^32`.
* The regular expressions of the catalog are transcribed into a small
  token language (`Tok`) with Python `re` semantics (leftmost match,
  greedy repetition with backtracking, alternation tried left to right,
  `(?i)` case-insensitivity, multiline `^`).
-/

/-! ## SHA-256 (used by `hashlib.sha256(...).hexdigest()` in the redactor) -/

/-- `2^32`, the word modulus of SHA-256. -/
def M32 : Nat := 4294967296

/-- Right rotation of a 32-bit word (input assumed `< 2^32`). -/
def rotr32 (x n : Nat) : Nat := ((x >>> n) ||| (x <<< (32 - n))) % M32

/-- Bitwise complement of a 32-bit word. -/
def not32 (x : Nat) : Nat := 4294967295 ^^^ x

def bigSigma0 (x : Nat) : Nat := rotr32 x 2 ^^^ rotr32 x 13 ^^^ rotr32 x 22
def bigSigma1 (x : Nat) : Nat := rotr32 x 6 ^^^ rotr32 x 11 ^^^ rotr32 x 25
def smallSigma0 (x : Nat) : Nat := rotr32 x 7 ^^^ rotr32 x 18 ^^^ (x >>> 3)
def smallSigma1 (x : Nat) : Nat := rotr32 x 17 ^^^ rotr32 x 19 ^^^ (x >>> 10)
def chFun (x y z : Nat) : Nat := (x &&& y) ^^^ (not32 x &&& z)
def majFun (x y z : Nat) : Nat := (x &&& y) ^^^ (x &&& z) ^^^ (y &&& z)

/-- The 64 SHA-256 round constants of FIPS 180-4 (fractional parts of
the cube roots of the first 64 primes), written in decimal. -/
def sha256K : List Nat :=
  [1116352408, 1899447441, 3049323471, 3921009573, 961987163,
   1508970993, 2453635748, 2870763221, 3624381080, 310598401,
   607225278, 1426881987, 1925078388, 2162078206, 2614888103,
   3248222580, 3835390401, 4022224774, 264347078, 604807628,
   770255983, 1249150122, 1555081692, 1996064986, 2554220882,
   2821834349, 2952996808, 3210313671, 3336571891, 3584528711,
   113926993, 338241895, 666307205, 773529912, 1294757372,
   1396182291, 1695183700, 1986661051, 2177026350, 2456956037,
   2730485921, 2820302411, 3259730800, 3345764771, 3516065817,
   3600352804, 4094571909, 275423344, 430227734, 506948616,
   659060556, 883997877, 958139571, 1322822218, 1537002063,
   1747873779, 1955562222, 2024104815, 2227730452, 2361852424,
   2428436474, 2756734187, 3204031479, 3329325298]

/-- Running hash state: eight 32-bit words. -/
structure H8 where
  a0 : Nat
  a1 : Nat
  a2 : Nat
  a3 : Nat
  a4 : Nat
  a5 : Nat
  a6 : Nat
  a7 : Nat

/-- SHA-256 initial hash value. -/
def sha256H0 : H8 :=
  ⟨1779033703, 3144134277, 1013904242, 2773480762,
   1359893119, 2600822924, 528734635, 1541459225⟩

/-- Extend 16 message words to the 64-word schedule. -/
def extendW (ws : List Nat) : List Nat :=
  (List.range 64).foldl
    (fun acc t =>
      if t < 16 then acc ++ [ws.getD t 0]
      else
        acc ++ [(smallSigma1 (acc.getD (t - 2) 0) + acc.getD (t - 7) 0 +
                 smallSigma0 (acc.getD (t - 15) 0) + acc.getD (t - 16) 0) % M32])
    []

/-- One SHA-256 compression step over a 64-word schedule entry. -/
def sha256Round (w : List Nat)
    (st : Nat × Nat × Nat × Nat × Nat × Nat × Nat × Nat) (t : Nat) :
    Nat × Nat × Nat × Nat × Nat × Nat × Nat × Nat :=
  let (a, b, c, d, e, f, g, h) := st
  let t1 := (h + bigSigma1 e + chFun e f g + sha256K.getD t 0 + w.getD t 0) % M32
  let t2 := (bigSigma0 a + majFun a b c) % M32
  ((t1 + t2) % M32, a, b, c, (d + t1) % M32, e, f, g)

/-- Compress one 512-bit block (given as 16 big-endian words) into the state. -/
def compressBlock (H : H8) (ws : List Nat) : H8 :=
  let w := extendW ws
  let (a, b, c, d, e, f, g, h) :=
    (List.range 64).foldl (sha256Round w) (H.a0, H.a1, H.a2, H.a3, H.a4, H.a5, H.a6, H.a7)
  ⟨(H.a0 + a) % M32, (H.a1 + b) % M32, (H.a2 + c) % M32, (H.a3 + d) % M32,
   (H.a4 + e) % M32, (H.a5 + f) % M32, (H.a6 + g) % M32, (H.a7 + h) % M32⟩

/-- Big-endian 8-byte encoding of a length in bits. -/
def be64 (n : Nat) : List Nat :=
  [(n >>> 56) % 256, (n >>> 48) % 256, (n >>> 40) % 256, (n >>> 32) % 256,
   (n >>> 24) % 256, (n >>> 16) % 256, (n >>> 8) % 256, n % 256]

/-- SHA-256 padding: append `0x80`, zeros to 56 mod 64, then the bit length. -/
def padMsg (msg : List Nat) : List Nat :=
  let L := msg.length
  let k := (120 - ((L + 1) % 64)) % 64
  msg ++ 0x80 :: List.replicate k 0 ++ be64 (8 * L)

/-- Split a byte list into 64-byte chunks.  The first argument is fuel;
`chunks64F l.length l` is enough since every step consumes 64 bytes of a
nonempty list. -/
def chunks64F : Nat → List Nat → List (List Nat)
  | 0, _ => []
  | _, [] => []
  | fuel + 1, l => l.take 64 :: chunks64F fuel (l.drop 64)

/-- Decode a 64-byte chunk into 16 big-endian 32-bit words. -/
def toWords (blk : List Nat) : List Nat :=
  (List.range 16).map fun i =>
    blk.getD (4 * i) 0 * 16777216 + blk.getD (4 * i + 1) 0 * 65536 +
    blk.getD (4 * i + 2) 0 * 256 + blk.getD (4 * i + 3) 0

/-- SHA-256 of a byte list, as the final state. -/
def sha256State (msg : List Nat) : H8 :=
  let padded := padMsg msg
  (chunks64F padded.length padded).foldl (fun H blk => compressBlock H (toWords blk)) sha256H0

/-- Lowercase hexadecimal digit for `n < 16`. -/
def hexDigit (n : Nat) : Char := Char.ofNat (if n < 10 then 48 + n else 87 + n)

/-- Eight hex digits of a 32-bit word, most significant first. -/
def hexWord (w : Nat) : List Char :=
  [hexDigit ((w >>> 28) % 16), hexDigit ((w >>> 24) % 16), hexDigit ((w >>> 20) % 16),
   hexDigit ((w >>> 16) % 16), hexDigit ((w >>> 12) % 16), hexDigit ((w >>> 8) % 16),
   hexDigit ((w >>> 4) % 16), hexDigit (w % 16)]

/-- The 64 characters of the hex digest. -/
def sha256hexChars (msg : List Nat) : List Char :=
  let H := sha256State msg
  hexWord H.a0 ++ hexWord H.a1 ++ hexWord H.a2 ++ hexWord H.a3 ++
  hexWord H.a4 ++ hexWord H.a5 ++ hexWord H.a6 ++ hexWord H.a7

/-- `hashlib.sha256(bytes).hexdigest()`. -/
def sha256hex (msg : List Nat) : String := String.mk (sha256hexChars msg)

/-- UTF-8 encoding of one code point (`str.encode()` per character). -/
def utf8EncodeNat (n : Nat) : List Nat :=
  if n < 128 then [n]
  else if n < 2048 then [192 + n / 64, 128 + n % 64]
  else if n < 65536 then [224 + n / 4096, 128 + (n / 64) % 64, 128 + n % 64]
  else [240 + n / 262144, 128 + (n / 4096) % 64, 128 + (n / 64) % 64, 128 + n % 64]

/-- `text.encode()`: UTF-8 bytes of a string. -/
def utf8Bytes (s : String) : List Nat := s.data.flatMap fun c => utf8EncodeNat c.toNat

-- sanity checks against published SHA-256 test vectors
example : sha256hex (utf8Bytes "abc") =
    "ba7816bf8f01cfea414140de5dae2223b00361a396177a9cb410ff61f20015ad" := by decide
example : sha256hex (utf8Bytes "") =
    "e3b0c44298fc1c149afbf4c8996fb92427ae41e4649b934ca495991b7852b855" := by decide

/-! ## Redactor: `redact_secret` -/

/-- The whitelist of recognizable-but-non-sensitive prefixes
(`safe_prefixes` in the source). -/
def safePrefixList : List String := ["sk-", "ghp", "gho", "AKIA", "xox", "eyJ"]

/-- `hashlib.sha256(text.encode()).hexdigest()[:8]` (a Python slice takes
the first 8 code points). -/
def text_fingerprint (text : String) : String :=
  String.mk ((sha256hexChars (utf8Bytes text)).take 8)

/-- `text.startswith(p)`, as a code-point prefix test. -/
def pyStartsWith (text p : String) : Bool := p.data.isPrefixOf text.data

set_option linter.unusedVariables false in
/-- `redact_secret` from the source.  The Python loop that picks the first
matching safe prefix (with `prefix` left empty, hence falsy, when none
matches) is embedded as `List.find?`.  The `visible_chars` parameter is
accepted and, as in the source body, never read. -/
def redact_secret (text : String) (visible_chars : Int := 4) : String :=
  let text_hash := text_fingerprint text
  if text.length ≤ 8 then
    "[REDACTED:" ++ text_hash ++ "]"
  else
    match safePrefixList.find? (fun p => pyStartsWith text p) with
    | some pfx => pfx ++ "***[" ++ text_hash ++ "]"
    | none => "***[" ++ text_hash ++ "]"

/-! ## Regular-expression engine

Each catalog regex is a sequence of tokens: literals, alternations of
literals, repeated character classes `{lo,hi}` (with `hi = none` for
unbounded), and the multiline `^` anchor.  `matchSeq` implements Python
`re` matching semantics at a fixed start position: alternatives are tried
left to right, repetitions are greedy and backtrack from the longest
feasible count downward, and the whole sequence must succeed.  The regexes
of this catalog repeat only single-character classes, so every repetition
step consumes exactly one character; groups are used by the source only
for alternation and an optional group, both covered by `alts` (an optional
group is an alternation whose last branch is the empty literal, matching
the greedy `?`). -/

inductive Tok where
  | lit (l : List Char)
  | alts (ci : Bool) (ss : List (List Char))
  | cls (p : Char → Bool) (lo : Nat) (hi : Option Nat)
  | bol

/-- ASCII lowercasing, the case folding used for `(?i)` literals here (all
case-insensitive literals in the catalog are ASCII). -/
def pyLower (c : Char) : Char :=
  if 65 ≤ c.toNat && c.toNat ≤ 90 then Char.ofNat (c.toNat + 32) else c

/-- Does literal `l` occur at position `i` of `s` (case-insensitively when
`ci` is set)? -/
def litAt (ci : Bool) (l : List Char) (s : List Char) (i : Nat) : Bool :=
  if ci then ((s.drop i).take l.length).map pyLower == l.map pyLower
  else (s.drop i).take l.length == l

/-- Length of the run of characters satisfying `p` at the head. -/
def runLenAux (p : Char → Bool) : List Char → Nat
  | [] => 0
  | c :: cs => if p c then runLenAux p cs + 1 else 0

/-- Length of the run of characters satisfying `p` starting at position `i`. -/
def runLen (p : Char → Bool) (s : List Char) (i : Nat) : Nat := runLenAux p (s.drop i)

/-- `[top, top-1, ..., lo]`: greedy order for repetition counts. -/
def descRange (lo top : Nat) : List Nat := (List.range' lo (top + 1 - lo)).reverse

/-- Match a token sequence at position `i` of `s`; returns the end
position of the match.  Backtracking is expressed with `findSome?`:
the first alternative / repetition count whose continuation succeeds. -/
def matchSeq (s : List Char) : List Tok → Nat → Option Nat
  | [], i => some i
  | Tok.lit l :: ts, i =>
      if litAt false l s i then matchSeq s ts (i + l.length) else none
  | Tok.alts ci ss :: ts, i =>
      ss.findSome? fun a => if litAt ci a s i then matchSeq s ts (i + a.length) else none
  | Tok.cls p lo hi :: ts, i =>
      -- the largest feasible count: the run length, additionally capped by
      -- `hi` when the repetition is bounded (`hi.getD r` is `r` when
      -- unbounded, so the `min` is exactly the bounded/unbounded cap)
      let top := min (hi.getD (runLen p s i)) (runLen p s i)
      if top < lo then none
      else (descRange lo top).findSome? fun k => matchSeq s ts (i + k)
  | Tok.bol :: ts, i =>
      if i == 0 || s[i - 1]? == some '\n' then matchSeq s ts i else none

/-- Scan positions `i, i+1, ...` (`rem` positions in all), skipping starts
before `minStart`, collecting non-overlapping matches.  This is
`re.finditer`: the next match is the leftmost one starting at or after the
end of the previous match. -/
def scanPositions (toks : List Tok) (s : List Char) : Nat → Nat → Nat → List (Nat × Nat)
  | 0, _, _ => []
  | rem + 1, i, minStart =>
      if i < minStart then scanPositions toks s rem (i + 1) minStart
      else
        match matchSeq s toks i with
        | some e => (i, e) :: scanPositions toks s rem (i + 1) (max e (i + 1))
        | none => scanPositions toks s rem (i + 1) minStart

/-- All non-overlapping matches of the token sequence in `s`, as
(start, end) spans, leftmost first. -/
def findIter (toks : List Tok) (s : List Char) : List (Nat × Nat) :=
  scanPositions toks s (s.length + 1) 0 0

/-! ## Character classes of the catalog -/

def isUpperAZ (c : Char) : Bool := 65 ≤ c.toNat && c.toNat ≤ 90
def isLowerAZ (c : Char) : Bool := 97 ≤ c.toNat && c.toNat ≤ 122
def isDigit09 (c : Char) : Bool := 48 ≤ c.toNat && c.toNat ≤ 57
def isAlnum (c : Char) : Bool := isUpperAZ c || isLowerAZ c || isDigit09 c
/-- `[0-9A-Z]`. -/
def isUpperDigit (c : Char) : Bool := isUpperAZ c || isDigit09 c
/-- `[A-Za-z0-9_]` (`\w` spelled out). -/
def isWordChar (c : Char) : Bool := isAlnum c || c == '_'
/-- `[A-Za-z0-9/+=]`, also written `[A-Za-z0-9+/=]` in the source. -/
def isB64 (c : Char) : Bool := isAlnum c || c == '/' || c == '+' || c == '='
/-- `[A-Za-z0-9-_]`, also written `[A-Za-z0-9_-]` and `[0-9A-Za-z-_]`. -/
def isB64Url (c : Char) : Bool := isAlnum c || c == '-' || c == '_'
/-- The quote class: apostrophe (39) or double quote (34). -/
def isQuoteCh (c : Char) : Bool := c.toNat == 39 || c.toNat == 34
/-- `[=:]`. -/
def isEqColon (c : Char) : Bool := c == '=' || c == ':'
/-- Python `\s` for `str` patterns: ASCII whitespace, the four file/group
separators 0x1c-0x1f, and the Unicode whitespace code points. -/
def pyIsSpace (c : Char) : Bool :=
  let n := c.toNat
  (9 ≤ n && n ≤ 13) || n == 32 || (28 ≤ n && n ≤ 31) || n == 133 || n == 160 ||
  n == 5760 || (8192 ≤ n && n ≤ 8202) || n == 8232 || n == 8233 || n == 8239 ||
  n == 8287 || n == 12288
/-- `[A-Z_]` under `(?i)`: upper or lower letters and underscore. -/
def isEnvName (c : Char) : Bool := isUpperAZ c || isLowerAZ c || c == '_'
/-- `[^\s'\"]`. -/
def isNotWsQuote (c : Char) : Bool := !(pyIsSpace c) && !(isQuoteCh c)
/-- `[^/:@\s]`. -/
def isUrlUser (c : Char) : Bool := !(c == '/') && !(c == ':') && !(c == '@') && !(pyIsSpace c)
/-- `[^/@\s]`. -/
def isUrlPass (c : Char) : Bool := !(c == '/') && !(c == '@') && !(pyIsSpace c)
/-- `[^/\s]`. -/
def isUrlHost (c : Char) : Bool := !(c == '/') && !(pyIsSpace c)
/-- `[^&\s]`. -/
def isNotAmpWs (c : Char) : Bool := !(c == '&') && !(pyIsSpace c)

/-! ## The pattern catalog (`SECRET_PATTERNS`)

Each token list transcribes the compiled regex of the corresponding
catalog entry, in source order. -/

/-- `AKIA[0-9A-Z]{16}` -/
def aws_access_key_toks : List Tok :=
  [.lit "AKIA".data, .cls isUpperDigit 16 (some 16)]

/-- `(?i)(aws_secret|secret_key|secret_access)['\"]?\s*[=:]\s*['\"]?([A-Za-z0-9/+=]{40})['\"]?` -/
def aws_secret_key_toks : List Tok :=
  [.alts true ["aws_secret".data, "secret_key".data, "secret_access".data],
   .cls isQuoteCh 0 (some 1), .cls pyIsSpace 0 none, .cls isEqColon 1 (some 1),
   .cls pyIsSpace 0 none, .cls isQuoteCh 0 (some 1), .cls isB64 40 (some 40),
   .cls isQuoteCh 0 (some 1)]

/-- `gh[pousr]_[A-Za-z0-9_]{36,}` -/
def github_token_toks : List Tok :=
  [.lit "gh".data,
   .cls (fun c => c == 'p' || c == 'o' || c == 'u' || c == 's' || c == 'r') 1 (some 1),
   .lit "_".data, .cls isWordChar 36 none]

/-- `gho_[A-Za-z0-9]{36}` -/
def github_oauth_toks : List Tok :=
  [.lit "gho_".data, .cls isAlnum 36 (some 36)]

/-- `sk-[A-Za-z0-9]{48,}` -/
def openai_api_key_toks : List Tok :=
  [.lit "sk-".data, .cls isAlnum 48 none]

/-- `sk-ant-[A-Za-z0-9-]{40,}` -/
def anthropic_api_key_toks : List Tok :=
  [.lit "sk-ant-".data, .cls (fun c => isAlnum c || c == '-') 40 none]

/-- `xox[baprs]-[0-9]{10,13}-[0-9]{10,13}-[a-zA-Z0-9]{24}` -/
def slack_token_toks : List Tok :=
  [.lit "xox".data,
   .cls (fun c => c == 'b' || c == 'a' || c == 'p' || c == 'r' || c == 's') 1 (some 1),
   .lit "-".data, .cls isDigit09 10 (some 13), .lit "-".data, .cls isDigit09 10 (some 13),
   .lit "-".data, .cls isAlnum 24 (some 24)]

/-- `https://hooks\.slack\.com/services/T[A-Z0-9]+/B[A-Z0-9]+/[A-Za-z0-9]+` -/
def slack_webhook_toks : List Tok :=
  [.lit "https://hooks.slack.com/services/T".data, .cls isUpperDigit 1 none,
   .lit "/B".data, .cls isUpperDigit 1 none, .lit "/".data, .cls isAlnum 1 none]

/-- `sk_live_[A-Za-z0-9]{24,}` -/
def stripe_key_toks : List Tok :=
  [.lit "sk_live_".data, .cls isAlnum 24 none]

/-- `sk_test_[A-Za-z0-9]{24,}` -/
def stripe_test_key_toks : List Tok :=
  [.lit "sk_test_".data, .cls isAlnum 24 none]

/-- `AIza[0-9A-Za-z-_]{35}` -/
def google_api_key_toks : List Tok :=
  [.lit "AIza".data, .cls isB64Url 35 (some 35)]

/-- `AAAA[A-Za-z0-9_-]{7}:[A-Za-z0-9_-]{140}` -/
def firebase_key_toks : List Tok :=
  [.lit "AAAA".data, .cls isB64Url 7 (some 7), .lit ":".data, .cls isB64Url 140 (some 140)]

/-- `-----BEGIN (RSA |EC |DSA |OPENSSH )?PRIVATE KEY-----` -/
def private_key_toks : List Tok :=
  [.lit "-----BEGIN ".data,
   .alts false ["RSA ".data, "EC ".data, "DSA ".data, "OPENSSH ".data, []],
   .lit "PRIVATE KEY-----".data]

/-- `eyJ[A-Za-z0-9-_]+\.eyJ[A-Za-z0-9-_]+\.[A-Za-z0-9-_]+` -/
def jwt_token_toks : List Tok :=
  [.lit "eyJ".data, .cls isB64Url 1 none, .lit ".".data, .lit "eyJ".data,
   .cls isB64Url 1 none, .lit ".".data, .cls isB64Url 1 none]

/-- `https?://[^/:@\s]+:[^/@\s]+@[^/\s]+` -/
def basic_auth_toks : List Tok :=
  [.lit "http".data, .alts false ["s".data, []], .lit "://".data,
   .cls isUrlUser 1 none, .lit ":".data, .cls isUrlPass 1 none,
   .lit "@".data, .cls isUrlHost 1 none]

/-- `[?&]password=[^&\s]+` -/
def password_in_url_toks : List Tok :=
  [.cls (fun c => c == '?' || c == '&') 1 (some 1), .lit "password=".data,
   .cls isNotAmpWs 1 none]

/-- `(?i)(api[_-]?key|secret|password|token|credential)['\"]?\s*[=:]\s*['\"][A-Za-z0-9+/=]{16,}['\"]`.
The sub-pattern `api[_-]?key` is expanded to the equivalent alternatives
`api_key | api-key | apikey`; the two explicit-separator forms exclude
each other at any position and the greedy `[_-]?` tries a separator
before the empty string, so the expansion preserves matching order. -/
def generic_secret_toks : List Tok :=
  [.alts true ["api_key".data, "api-key".data, "apikey".data, "secret".data,
               "password".data, "token".data, "credential".data],
   .cls isQuoteCh 0 (some 1), .cls pyIsSpace 0 none, .cls isEqColon 1 (some 1),
   .cls pyIsSpace 0 none, .cls isQuoteCh 1 (some 1), .cls isB64 16 none,
   .cls isQuoteCh 1 (some 1)]

/-- `(?i)^[A-Z_]*(SECRET|KEY|TOKEN|PASSWORD|CREDENTIAL)[A-Z_]*\s*=\s*['\"]?[^\s'\"]+['\"]?`
with `re.MULTILINE`. -/
def env_secret_toks : List Tok :=
  [.bol, .cls isEnvName 0 none,
   .alts true ["secret".data, "key".data, "token".data, "password".data, "credential".data],
   .cls isEnvName 0 none, .cls pyIsSpace 0 none, .lit "=".data, .cls pyIsSpace 0 none,
   .cls isQuoteCh 0 (some 1), .cls isNotWsQuote 1 none, .cls isQuoteCh 0 (some 1)]

/-- Catalog entry: `SecretPattern` from the source, with the compiled
regex replaced by its token transcription. -/
structure SecretPattern where
  name : String
  pattern : List Tok
  description : String
  severity : String := "high"

/-- The ordered pattern catalog `SECRET_PATTERNS`. -/
def SECRET_PATTERNS : List SecretPattern :=
  [⟨"aws_access_key", aws_access_key_toks, "AWS Access Key ID", "high"⟩,
   ⟨"aws_secret_key", aws_secret_key_toks, "AWS Secret Key", "high"⟩,
   ⟨"github_token", github_token_toks, "GitHub Token", "high"⟩,
   ⟨"github_oauth", github_oauth_toks, "GitHub OAuth Token", "high"⟩,
   ⟨"openai_api_key", openai_api_key_toks, "OpenAI API Key", "high"⟩,
   ⟨"anthropic_api_key", anthropic_api_key_toks, "Anthropic API Key", "high"⟩,
   ⟨"slack_token", slack_token_toks, "Slack Token", "high"⟩,
   ⟨"slack_webhook", slack_webhook_toks, "Slack Webhook URL", "medium"⟩,
   ⟨"stripe_key", stripe_key_toks, "Stripe Live Key", "high"⟩,
   ⟨"stripe_test_key", stripe_test_key_toks, "Stripe Test Key", "low"⟩,
   ⟨"google_api_key", google_api_key_toks, "Google API Key", "high"⟩,
   ⟨"firebase_key", firebase_key_toks, "Firebase Cloud Messaging Key", "high"⟩,
   ⟨"private_key", private_key_toks, "Private Key File", "high"⟩,
   ⟨"jwt_token", jwt_token_toks, "JWT Token", "medium"⟩,
   ⟨"basic_auth", basic_auth_toks, "URL with Basic Auth Credentials", "high"⟩,
   ⟨"password_in_url", password_in_url_toks, "Password in URL Parameter", "high"⟩,
   ⟨"generic_secret", generic_secret_toks, "Generic Secret Assignment", "medium"⟩,
   ⟨"env_secret", env_secret_toks, "Environment Variable Secret", "medium"⟩]

/-! ## The content scanner: `scan_content` -/

/-- `SecretFinding` from the source.  `line_number` is `int | None` and
`context` defaults to `None`. -/
structure SecretFinding where
  pattern_name : String
  description : String
  severity : String
  file_path : String
  commit_hash : String
  line_number : Option Int
  matched_text : String
  context : Option String := none
deriving DecidableEq

/-- Python slice `s[a:b]` over code points. -/
def sliceChars (s : List Char) (a b : Nat) : List Char := (s.drop a).take (b - a)

/-- The body of the inner loop of `scan_content`, building one finding
from a match span.  `se.1 - 20` is Python's `max(0, start - 20)` (Nat
subtraction truncates at zero); `.replace("\n", " ")` on a single
character is a map. -/
def mkFinding (pat : SecretPattern) (content : List Char)
    (file_path commit_hash : String) (se : Nat × Nat) : SecretFinding :=
  let matched_text := String.mk (sliceChars content se.1 se.2)
  let line_number : Int := ((content.take se.1).count '\n' : Nat) + 1
  let cstart := se.1 - 20
  let cend := min content.length (se.2 + 20)
  let context := String.mk ((sliceChars content cstart cend).map fun c =>
    if c == '\n' then ' ' else c)
  { pattern_name := pat.name, description := pat.description, severity := pat.severity,
    file_path := file_path, commit_hash := commit_hash, line_number := some line_number,
    matched_text := redact_secret matched_text,
    context := some (redact_secret context 10) }

/-- The scan loop of `scan_content` after the `isinstance` guard: for
each pattern in catalog order, one finding per `finditer` match. -/
def scanStr (content file_path commit_hash : String) : List SecretFinding :=
  SECRET_PATTERNS.flatMap fun pat =>
    (findIter pat.pattern content.data).map (mkFinding pat content.data file_path commit_hash)

/-- Dynamically typed argument values, enough to express the
`isinstance(content, str)` guard of `scan_content`. -/
inductive PyVal where
  | vstr (s : String)
  | vbytes (bs : List Nat)
  | vnone
  | vint (n : Int)
  | vbool (b : Bool)
  | vlist (xs : List PyVal)

/-- `isinstance(v, str)`. -/
def isinstanceStr : PyVal → Bool
  | .vstr _ => true
  | _ => false

/-- `scan_content`: non-string content short-circuits to the empty list,
string content is scanned.  Every operation in the body is total, so the
embedding returns a plain list (the function cannot raise). -/
def scan_content (content : PyVal) (file_path : String := "") (commit_hash : String := "") :
    List SecretFinding :=
  match content with
  | .vstr s => scanStr s file_path commit_hash
  | _ => []

/-! ## Sensitive-file classifier and risk levels -/

/-- Shell-style glob matching (`fnmatch.fnmatch` on POSIX, where
`os.path.normcase` is the identity): `*` matches any run of characters,
`?` any single character; the sensitive-file globs use no character
classes.  The first argument is fuel; every step shortens
pattern-plus-text, so `ps.length + cs.length + 1` is always enough. -/
def globMatchF : Nat → List Char → List Char → Bool
  | 0, _, _ => false
  | fuel + 1, ps, cs =>
    match ps, cs with
    | [], [] => true
    | [], _ :: _ => false
    | '*' :: ps1, [] => globMatchF fuel ps1 []
    | '*' :: ps1, c :: cs1 => globMatchF fuel ps1 (c :: cs1) || globMatchF fuel ('*' :: ps1) cs1
    | '?' :: ps1, _ :: cs1 => globMatchF fuel ps1 cs1
    | _ :: _, [] => false
    | p :: ps1, c :: cs1 => p == c && globMatchF fuel ps1 cs1

/-- `fnmatch.fnmatch(name, pat)`. -/
def fnmatchB (name pat : String) : Bool :=
  globMatchF (pat.data.length + name.data.length + 1) pat.data name.data

/-- Split on `/` (keeping empty segments). -/
def splitSlash : List Char → List (List Char)
  | [] => [[]]
  | '/' :: cs => [] :: splitSlash cs
  | c :: cs =>
      match splitSlash cs with
      | [] => [[c]]
      | h :: t => (c :: h) :: t

/-- `pathlib.Path(p).name` on POSIX: the last `/`-separated component
after dropping empty and `.` components, or the empty string. -/
def pathName (p : String) : String :=
  let comps := (splitSlash p.data).filter fun c => !c.isEmpty && c != ['.']
  String.mk (comps.getLast?.getD [])

/-- The glob list `SENSITIVE_FILES` from the source. -/
def SENSITIVE_FILES : List String :=
  [".env", ".env.local", ".env.production", ".env.development",
   "credentials.json", "secrets.json", "config.json", "settings.json",
   ".npmrc", ".pypirc",
   "id_rsa", "id_dsa", "id_ecdsa", "id_ed25519",
   "*.pem", "*.key", "*.p12", "*.pfx",
   "service-account.json", "firebase-adminsdk*.json",
   ".htpasswd", "wp-config.php", "database.yml", "secrets.yml"]

/-- `is_sensitive_file`: the base name or the full path matches one of
the sensitive globs. -/
def is_sensitive_file (file_path : String) : Bool :=
  let name := pathName file_path
  SENSITIVE_FILES.any fun pat => fnmatchB name pat || fnmatchB file_path pat

def high_risk_extensions : List String := [".pem", ".key", ".p12", ".pfx", ".env"]
def medium_risk_extensions : List String := [".json", ".yml", ".yaml", ".xml", ".conf", ".cfg"]

/-- `file_path.rsplit(".", 1)[-1]`: the suffix after the last `.`, or the
whole string when there is no `.` (the caller guards that case). -/
def rsplitDotLast (s : List Char) : List Char :=
  (s.reverse.takeWhile fun c => c != '.').reverse

/-- `get_file_risk_level` from the source. -/
def get_file_risk_level (file_path : String) : String :=
  if is_sensitive_file file_path then "high"
  else
    let ext := if file_path.data.contains '.' then
        String.mk ('.' :: rsplitDotLast file_path.data)
      else ""
    if high_risk_extensions.contains ext then "high"
    else if medium_risk_extensions.contains ext then "medium"
    else "low"

/-- The risk-level rule as the spec states it, for the refinement claim:
strict top-to-bottom precedence, with the extension read as the substring
after the last `.` (here located by folding over the path, a different
formulation from the source's right split).  `extDotSuffixSpec` returns
the characters strictly after the most recent `.`, or `none` when the
path has no dot. -/
def extDotSuffixSpec (p : String) : Option (List Char) :=
  p.data.foldl
    (fun acc c =>
      match acc with
      | none => if c == '.' then some [] else none
      | some suf => if c == '.' then some [] else some (suf ++ [c]))
    none

/-- Clause order of the claim: sensitive-list membership first, then the
high-risk extensions, then the medium-risk ones, else low. -/
def riskLevelSpec (p : String) : String :=
  if is_sensitive_file p then "high"
  else
    match extDotSuffixSpec p with
    | none => "low"
    | some suf =>
        let ext := String.mk ('.' :: suf)
        if high_risk_extensions.contains ext then "high"
        else if medium_risk_extensions.contains ext then "medium"
        else "low"

-- sanity checks mirroring the repository's own tests
example : is_sensitive_file ".env" = true := by decide
example : is_sensitive_file ".env.production" = true := by decide
example : is_sensitive_file "id_rsa" = true := by decide
example : is_sensitive_file "server.key" = true := by decide
example : is_sensitive_file "main.py" = false := by decide
example : is_sensitive_file "package.json" = false := by decide
example : get_file_risk_level ".env" = "high" := by decide
example : get_file_risk_level "app_settings.json" = "medium" := by decide
example : get_file_risk_level "data.yml" = "medium" := by decide
example : get_file_risk_level "main.py" = "low" := by decide
example : get_file_risk_level "secrets.yml" = "high" := by decide
example : riskLevelSpec "secrets.yml" = "high" := by decide
example : riskLevelSpec "archive.tar.gz" = "low" := by decide
example : get_file_risk_level "a.b/c" = "low" := by decide
example : riskLevelSpec "a.b/c" = "low" := by decide

/-! ## Lemmas about the matching engine -/

lemma findSome?_isSome_of_mem {α β : Type} {l : List α} {f : α → Option β} {a : α}
    (ha : a ∈ l) (hb : (f a).isSome) : (l.findSome? f).isSome := by
  induction l with
  | nil => cases ha
  | cons x xs ih =>
    rw [List.findSome?_cons]
    cases hfx : f x with
    | some b => simp
    | none =>
      rcases List.mem_cons.mp ha with rfl | ha2
      · rw [hfx] at hb; simp at hb
      · exact ih ha2

lemma mem_descRange {lo top k : Nat} (h : k ∈ descRange lo top) : lo ≤ k ∧ k ≤ top := by
  unfold descRange at h
  rw [List.mem_reverse, List.mem_range'_1] at h
  omega

lemma descRange_mem {lo top k : Nat} (h1 : lo ≤ k) (h2 : k ≤ top) : k ∈ descRange lo top := by
  unfold descRange
  rw [List.mem_reverse, List.mem_range'_1]
  omega

lemma litAt_le (ci : Bool) (l s : List Char) (i : Nat) (h : litAt ci l s i = true) :
    l.length ≤ s.length - i := by
  unfold litAt at h
  split at h
  · have hlen := congrArg List.length (beq_iff_eq.mp h)
    simp [List.length_take, List.length_drop] at hlen
    omega
  · have hlen := congrArg List.length (beq_iff_eq.mp h)
    simp [List.length_take, List.length_drop] at hlen
    omega

/-- A successful case-sensitive literal test pins down the slice. -/
lemma litAt_eq (l s : List Char) (i : Nat) (h : litAt false l s i = true) :
    (s.drop i).take l.length = l := by
  unfold litAt at h
  exact beq_iff_eq.mp h

lemma runLenAux_le (p : Char → Bool) (l : List Char) : runLenAux p l ≤ l.length := by
  induction l with
  | nil => simp [runLenAux]
  | cons c cs ih =>
    rw [runLenAux]
    split
    · simp only [List.length_cons]
      omega
    · simp

lemma runLen_le (p : Char → Bool) (s : List Char) (i : Nat) : runLen p s i ≤ s.length - i := by
  have := runLenAux_le p (s.drop i)
  simpa [runLen, List.length_drop] using this

/-- If the first `n` characters satisfy `p`, the run is at least `n`. -/
lemma runLenAux_ge (p : Char → Bool) :
    ∀ (n : Nat) (l : List Char), n ≤ l.length → (∀ c ∈ l.take n, p c = true) →
      n ≤ runLenAux p l := by
  intro n
  induction n with
  | zero => intro l _ _; omega
  | succ m ih =>
    intro l hlen hall
    cases l with
    | nil => simp at hlen
    | cons c cs =>
      have hc : p c = true := hall c (by simp [List.take])
      rw [runLenAux, if_pos hc]
      have := ih cs (by simpa using hlen) (fun d hd => hall d (by simp [List.take, hd]))
      omega

/-- Minimum over a nonempty list of lengths (0 for the empty list, which
never occurs in the catalog). -/
def minNatList : List Nat → Nat
  | [] => 0
  | x :: xs => xs.foldl min x

lemma foldl_min_le_init (l : List Nat) : ∀ init : Nat, l.foldl min init ≤ init := by
  induction l with
  | nil => simp
  | cons a t ih =>
    intro init
    calc (a :: t).foldl min init = t.foldl min (min init a) := by simp
    _ ≤ min init a := ih (min init a)
    _ ≤ init := min_le_left _ _

lemma foldl_min_le_mem (l : List Nat) : ∀ (init : Nat) (x : Nat), x ∈ l → l.foldl min init ≤ x := by
  induction l with
  | nil => intro _ x hx; cases hx
  | cons a t ih =>
    intro init x hx
    rcases List.mem_cons.mp hx with rfl | hx2
    · calc (x :: t).foldl min init = t.foldl min (min init x) := by simp
      _ ≤ min init x := foldl_min_le_init t _
      _ ≤ x := min_le_right _ _
    · exact ih (min init a) x hx2

lemma minNatList_le {l : List Nat} {x : Nat} (h : x ∈ l) : minNatList l ≤ x := by
  cases l with
  | nil => cases h
  | cons a t =>
    rcases List.mem_cons.mp h with rfl | h2
    · exact foldl_min_le_init t x
    · exact foldl_min_le_mem t a x h2

/-- Fewest characters a token can consume. -/
def minLenTok : Tok → Nat
  | .lit l => l.length
  | .alts _ ss => minNatList (ss.map List.length)
  | .cls _ lo _ => lo
  | .bol => 0

/-- Fewest characters a token sequence can consume. -/
def minLenList (ts : List Tok) : Nat := (ts.map minLenTok).sum

/-- Every match consumes at least `minLenList`. -/
lemma matchSeq_minLen (s : List Char) :
    ∀ (ts : List Tok) (i j : Nat), matchSeq s ts i = some j → i + minLenList ts ≤ j := by
  intro ts
  induction ts with
  | nil =>
    intro i j h
    simp [matchSeq] at h
    simp [minLenList, h]
  | cons t ts ih =>
    intro i j h
    cases t with
    | lit l =>
      rw [matchSeq] at h
      split at h
      · have := ih _ _ h
        simp [minLenList, minLenTok] at *
        omega
      · cases h
    | alts ci ss =>
      rw [matchSeq] at h
      obtain ⟨a, ha, hfa⟩ := List.exists_of_findSome?_eq_some h
      split at hfa
      · have := ih _ _ hfa
        have hmin : minNatList (ss.map List.length) ≤ a.length :=
          minNatList_le (List.mem_map_of_mem List.length ha)
        simp [minLenList, minLenTok] at *
        omega
      · cases hfa
    | cls p lo hi =>
      rw [matchSeq] at h
      split at h
      · cases h
      · obtain ⟨k, hk, hfk⟩ := List.exists_of_findSome?_eq_some h
        have hk2 := mem_descRange hk
        have := ih _ _ hfk
        simp [minLenList, minLenTok] at *
        omega
    | bol =>
      rw [matchSeq] at h
      split at h
      · have := ih _ _ h
        simp [minLenList, minLenTok] at *
        omega
      · cases h

/-- Matching moves forward. -/
lemma matchSeq_le (s : List Char) (ts : List Tok) (i j : Nat)
    (h : matchSeq s ts i = some j) : i ≤ j := by
  have := matchSeq_minLen s ts i j h
  omega

/-- A match never runs past the end of the text. -/
lemma matchSeq_le_length (s : List Char) :
    ∀ (ts : List Tok) (i j : Nat), i ≤ s.length → matchSeq s ts i = some j →
      j ≤ s.length := by
  intro ts
  induction ts with
  | nil =>
    intro i j hi h
    simp [matchSeq] at h
    omega
  | cons t ts ih =>
    intro i j hi h
    cases t with
    | lit l =>
      rw [matchSeq] at h
      split at h
      · have hl := litAt_le false l s i (by assumption)
        exact ih _ _ (by omega) h
      · cases h
    | alts ci ss =>
      rw [matchSeq] at h
      obtain ⟨a, ha, hfa⟩ := List.exists_of_findSome?_eq_some h
      split at hfa
      · have hl := litAt_le ci a s i (by assumption)
        exact ih _ _ (by omega) hfa
      · cases hfa
    | cls p lo hi =>
      rw [matchSeq] at h
      split at h
      · cases h
      · obtain ⟨k, hk, hfk⟩ := List.exists_of_findSome?_eq_some h
        have hk2 := mem_descRange hk
        have hrun : k ≤ runLen p s i := le_trans hk2.2 (min_le_right _ _)
        have := runLen_le p s i
        exact ih _ _ (by omega) hfk
    | bol =>
      rw [matchSeq] at h
      split at h
      · exact ih _ _ hi h
      · cases h


/-- A mandatory literal token leaves its characters inside the matched span. -/
lemma matchSeq_lit_char (s : List Char) (c : Char) (l0 : List Char) (hc : c ∈ l0) :
    ∀ (ts : List Tok) (i j : Nat), Tok.lit l0 ∈ ts → matchSeq s ts i = some j →
      ∃ idx, i ≤ idx ∧ idx < j ∧ s[idx]? = some c := by
  intro ts
  induction ts with
  | nil => intro i j hmem _; cases hmem
  | cons t ts ih =>
    intro i j hmem h
    rcases List.mem_cons.mp hmem with heq | htail
    · subst heq
      rw [matchSeq] at h
      split at h
      · have hslice := litAt_eq l0 s i (by assumption)
        obtain ⟨k, hk, hkc⟩ := List.mem_iff_getElem.mp hc
        have hj := matchSeq_le s ts (i + l0.length) j h
        refine ⟨i + k, by omega, by omega, ?_⟩
        have h1 : ((s.drop i).take l0.length)[k]? = some c := by
          rw [hslice, List.getElem?_eq_getElem hk, hkc]
        rw [List.getElem?_take, if_pos hk, List.getElem?_drop] at h1
        exact h1
      · cases h
    · cases t with
      | lit l =>
        rw [matchSeq] at h
        split at h
        · obtain ⟨idx, h1, h2, h3⟩ := ih (i + l.length) j htail h
          exact ⟨idx, by omega, h2, h3⟩
        · cases h
      | alts ci ss =>
        rw [matchSeq] at h
        obtain ⟨a, _, hfa⟩ := List.exists_of_findSome?_eq_some h
        split at hfa
        · obtain ⟨idx, h1, h2, h3⟩ := ih _ _ htail hfa
          exact ⟨idx, by omega, h2, h3⟩
        · cases hfa
      | cls p lo hi =>
        rw [matchSeq] at h
        split at h
        · cases h
        · obtain ⟨k, _, hfk⟩ := List.exists_of_findSome?_eq_some h
          obtain ⟨idx, h1, h2, h3⟩ := ih _ _ htail hfk
          exact ⟨idx, by omega, h2, h3⟩
      | bol =>
        rw [matchSeq] at h
        split at h
        · exact ih _ _ htail h
        · cases h

/-- Every span the position scan reports is a real match at or after the
start position, within the scanned window. -/
lemma mem_scanPositions (toks : List Tok) (s : List Char) :
    ∀ (rem i ms a b : Nat), (a, b) ∈ scanPositions toks s rem i ms →
      matchSeq s toks a = some b ∧ i ≤ a ∧ a < i + rem := by
  intro rem
  induction rem with
  | zero => intro i ms a b h; simp [scanPositions] at h
  | succ n ih =>
    intro i ms a b h
    rw [scanPositions] at h
    split at h
    · obtain ⟨h1, h2, h3⟩ := ih _ _ _ _ h
      exact ⟨h1, by omega, by omega⟩
    · cases hm : matchSeq s toks i with
      | some e =>
        rw [hm] at h
        rcases List.mem_cons.mp h with heq | htail
        · have ha : a = i := congrArg Prod.fst heq
          have hb : b = e := congrArg Prod.snd heq
          subst ha; subst hb
          exact ⟨hm, le_refl _, by omega⟩
        · obtain ⟨h1, h2, h3⟩ := ih _ _ _ _ htail
          exact ⟨h1, by omega, by omega⟩
      | none =>
        rw [hm] at h
        obtain ⟨h1, h2, h3⟩ := ih _ _ _ _ h
        exact ⟨h1, by omega, by omega⟩

/-- If some position in the scanned window matches, the scan reports
something (the scan can only pass a matching position after having
already reported an earlier match). -/
lemma scanPositions_ne_nil (toks : List Tok) (s : List Char) :
    ∀ (rem i0 ms i e : Nat), i0 ≤ i → ms ≤ i → i < i0 + rem →
      matchSeq s toks i = some e → scanPositions toks s rem i0 ms ≠ [] := by
  intro rem
  induction rem with
  | zero => intro i0 ms i e h1 h2 h3 _; omega
  | succ n ih =>
    intro i0 ms i e h1 h2 h3 hm
    rw [scanPositions]
    split
    · exact ih (i0 + 1) ms i e (by omega) h2 (by omega) hm
    · cases hmm0 : matchSeq s toks i0 with
      | some e0 => exact List.cons_ne_nil _ _
      | none =>
        have hne : i0 ≠ i := by
          intro hEq
          rw [hEq, hm] at hmm0
          cases hmm0
        exact ih (i0 + 1) ms i e (by omega) h2 (by omega) hm

lemma mem_findIter {toks : List Tok} {s : List Char} {a b : Nat}
    (h : (a, b) ∈ findIter toks s) :
    matchSeq s toks a = some b ∧ a ≤ s.length := by
  obtain ⟨h1, _, h3⟩ := mem_scanPositions toks s (s.length + 1) 0 0 a b h
  exact ⟨h1, by omega⟩

lemma findIter_ne_nil {toks : List Tok} {s : List Char} {i e : Nat}
    (hi : i ≤ s.length) (hm : matchSeq s toks i = some e) : findIter toks s ≠ [] :=
  scanPositions_ne_nil toks s (s.length + 1) 0 0 i e (Nat.zero_le i) (Nat.zero_le i)
    (by omega) hm

/-- Membership skeleton for the scanner: every finding arises from a
catalog pattern and one of its match spans. -/
lemma mem_scanStr {content fp ch : String} {f : SecretFinding} :
    f ∈ scanStr content fp ch ↔
      ∃ pat, pat ∈ SECRET_PATTERNS ∧ ∃ se, se ∈ findIter pat.pattern content.data ∧
        f = mkFinding pat content.data fp ch se := by
  simp only [scanStr, List.mem_flatMap, List.mem_map]
  constructor
  · rintro ⟨pat, hp, se, hse, rfl⟩
    exact ⟨pat, hp, se, hse, rfl⟩
  · rintro ⟨pat, hp, se, hse, rfl⟩
    exact ⟨pat, hp, se, hse, rfl⟩

/-! ## Substring containment -/

/-- `needle` occurs verbatim inside `hay`. -/
def containsSubstr (needle hay : List Char) : Prop :=
  ∃ pre post, hay = pre ++ needle ++ post

/-- Executable substring check. -/
def isSubstrB (needle hay : List Char) : Bool :=
  (List.range (hay.length + 1)).any fun i => needle.isPrefixOf (hay.drop i)

lemma containsSubstr_iff (n h : List Char) : containsSubstr n h ↔ isSubstrB n h = true := by
  constructor
  · rintro ⟨pre, post, rfl⟩
    unfold isSubstrB
    rw [List.any_eq_true]
    refine ⟨pre.length, ?_, ?_⟩
    · rw [List.mem_range]
      simp only [List.length_append]
      omega
    · rw [List.append_assoc, List.drop_left]
      exact List.isPrefixOf_iff_prefix.mpr (List.prefix_append n post)
  · intro hb
    unfold isSubstrB at hb
    rw [List.any_eq_true] at hb
    obtain ⟨i, _, hp⟩ := hb
    obtain ⟨post, hpost⟩ := List.isPrefixOf_iff_prefix.mp hp
    refine ⟨h.take i, post, ?_⟩
    rw [List.append_assoc, hpost, List.take_append_drop]

instance (n h : List Char) : Decidable (containsSubstr n h) :=
  decidable_of_iff' _ (containsSubstr_iff n h)

lemma containsSubstr_length_le {n h : List Char} (hc : containsSubstr n h) :
    n.length ≤ h.length := by
  obtain ⟨pre, post, rfl⟩ := hc
  simp only [List.length_append]
  omega

lemma containsSubstr_mem {n h : List Char} (hc : containsSubstr n h) {c : Char}
    (hm : c ∈ n) : c ∈ h := by
  obtain ⟨pre, post, rfl⟩ := hc
  exact List.mem_append_left post (List.mem_append_right pre hm)

/-! ## Shape of redactor output -/

/-- The sixteen lowercase hex characters. -/
def hexCharList : List Char := "0123456789abcdef".data

lemma hexDigit_mem_hex : ∀ n, n < 16 → hexDigit n ∈ hexCharList := by decide

lemma hexWord_chars (w : Nat) : ∀ c ∈ hexWord w, c ∈ hexCharList := by
  intro c hc
  simp only [hexWord, List.mem_cons, List.not_mem_nil, or_false] at hc
  rcases hc with rfl | rfl | rfl | rfl | rfl | rfl | rfl | rfl <;>
    exact hexDigit_mem_hex _ (Nat.mod_lt _ (by omega))

lemma sha256hexChars_chars (m : List Nat) : ∀ c ∈ sha256hexChars m, c ∈ hexCharList := by
  intro c hc
  simp only [sha256hexChars, List.mem_append] at hc
  rcases hc with ((((((hc | hc) | hc) | hc) | hc) | hc) | hc) | hc <;>
    exact hexWord_chars _ c hc

lemma sha256hexChars_length (m : List Nat) : (sha256hexChars m).length = 64 := by
  simp [sha256hexChars, hexWord]

lemma text_fingerprint_chars (t : String) :
    ∀ c ∈ (text_fingerprint t).data, c ∈ hexCharList :=
  fun c hc => sha256hexChars_chars _ c (List.mem_of_mem_take hc)

lemma text_fingerprint_length (t : String) : (text_fingerprint t).length = 8 := by
  show ((sha256hexChars (utf8Bytes t)).take 8).length = 8
  rw [List.length_take, sha256hexChars_length]
  decide

/-- Every character the redactor can emit: the fixed frames
`[REDACTED:...]` and `***[...]`, the characters of the six safe prefixes,
and hex digits. -/
def redactAlphabet : List Char := "0123456789abcdef[]*:REDACTskghpoxyJKI-".data

lemma hex_subset_alphabet : ∀ c ∈ hexCharList, c ∈ redactAlphabet := by decide

lemma redact_secret_chars (t : String) (v : Int) :
    ∀ c ∈ (redact_secret t v).data, c ∈ redactAlphabet := by
  intro c hc
  simp only [redact_secret] at hc
  split at hc
  · simp only [String.data_append, List.mem_append] at hc
    rcases hc with (hc | hc) | hc
    · have hfix : ∀ x ∈ "[REDACTED:".data, x ∈ redactAlphabet := by decide
      exact hfix c hc
    · exact hex_subset_alphabet c (text_fingerprint_chars t c hc)
    · have hfix : ∀ x ∈ "]".data, x ∈ redactAlphabet := by decide
      exact hfix c hc
  · cases hf : safePrefixList.find? (fun p => pyStartsWith t p) with
    | some pfx =>
      rw [hf] at hc
      have hpm : pfx ∈ safePrefixList := List.mem_of_find?_eq_some hf
      simp only [String.data_append, List.mem_append] at hc
      rcases hc with ((hc | hc) | hc) | hc
      · have hsp : ∀ p ∈ safePrefixList, ∀ x ∈ p.data, x ∈ redactAlphabet := by decide
        exact hsp pfx hpm c hc
      · have hfix : ∀ x ∈ "***[".data, x ∈ redactAlphabet := by decide
        exact hfix c hc
      · exact hex_subset_alphabet c (text_fingerprint_chars t c hc)
      · have hfix : ∀ x ∈ "]".data, x ∈ redactAlphabet := by decide
        exact hfix c hc
    | none =>
      rw [hf] at hc
      simp only [String.data_append, List.mem_append] at hc
      rcases hc with (hc | hc) | hc
      · have hfix : ∀ x ∈ "***[".data, x ∈ redactAlphabet := by decide
        exact hfix c hc
      · exact hex_subset_alphabet c (text_fingerprint_chars t c hc)
      · have hfix : ∀ x ∈ "]".data, x ∈ redactAlphabet := by decide
        exact hfix c hc

lemma redact_secret_length_le (t : String) (v : Int) : (redact_secret t v).length ≤ 19 := by
  have hfp := text_fingerprint_length t
  simp only [redact_secret]
  split
  · simp only [String.length_append, hfp]
    decide
  · cases hf : safePrefixList.find? (fun p => pyStartsWith t p) with
    | some pfx =>
      have hpm : pfx ∈ safePrefixList := List.mem_of_find?_eq_some hf
      have hp4 : pfx.length ≤ 4 := by
        have hsp : ∀ p ∈ safePrefixList, p.length ≤ 4 := by decide
        exact hsp pfx hpm
      simp only [String.length_append, hfp]
      have h4 : ("***[" : String).length = 4 := by decide
      have h1 : ("]" : String).length = 1 := by decide
      omega
    | none =>
      simp only [String.length_append, hfp]
      decide

/-! ## Safety of every catalog pattern

Each pattern either always matches more than 19 characters (more than any
redactor output is long), or forces a character the redactor can never
emit into the matched span. -/

/-- The span `[i, j)` of `s` holds a character outside the redactor's
output alphabet. -/
def badCharAt (s : List Char) (i j : Nat) : Prop :=
  ∃ idx c, i ≤ idx ∧ idx < j ∧ s[idx]? = some c ∧ c ∉ redactAlphabet

def patSafe (ts : List Tok) : Prop :=
  ∀ (s : List Char) (i j : Nat), matchSeq s ts i = some j → 20 ≤ j - i ∨ badCharAt s i j

lemma patSafe_of_minLen {ts : List Tok} (h : 20 ≤ minLenList ts) : patSafe ts := by
  intro s i j hm
  left
  have := matchSeq_minLen s ts i j hm
  omega

lemma patSafe_of_lit {ts : List Tok} {l0 : List Char} {c : Char}
    (hmem : Tok.lit l0 ∈ ts) (hc : c ∈ l0) (hna : c ∉ redactAlphabet) : patSafe ts := by
  intro s i j hm
  right
  obtain ⟨idx, h1, h2, h3⟩ := matchSeq_lit_char s c l0 hc ts i j hmem hm
  exact ⟨idx, c, h1, h2, h3, hna⟩

lemma all_patterns_safe : ∀ pat ∈ SECRET_PATTERNS, patSafe pat.pattern := by
  intro pat hp
  simp only [SECRET_PATTERNS, List.mem_cons, List.not_mem_nil, or_false] at hp
  rcases hp with rfl | rfl | rfl | rfl | rfl | rfl | rfl | rfl | rfl | rfl | rfl | rfl |
    rfl | rfl | rfl | rfl | rfl | rfl
  · exact patSafe_of_minLen (by decide)
  · exact patSafe_of_minLen (by decide)
  · exact patSafe_of_minLen (by decide)
  · exact patSafe_of_minLen (by decide)
  · exact patSafe_of_minLen (by decide)
  · exact patSafe_of_minLen (by decide)
  · exact patSafe_of_minLen (by decide)
  · exact patSafe_of_minLen (by decide)
  · exact patSafe_of_minLen (by decide)
  · exact patSafe_of_minLen (by decide)
  · exact patSafe_of_minLen (by decide)
  · exact patSafe_of_minLen (by decide)
  · exact patSafe_of_minLen (by decide)
  · -- jwt_token: the mandatory dot can never appear in redacted output
    exact @patSafe_of_lit _ ".".data '.'
      (by simp [jwt_token_toks]) (by decide) (by decide)
  · -- basic_auth: the mandatory at sign
    exact @patSafe_of_lit _ "@".data '@'
      (by simp [basic_auth_toks]) (by decide) (by decide)
  · -- password_in_url: the equals sign of the literal query key
    exact @patSafe_of_lit _ "password=".data '='
      (by simp [password_in_url_toks]) (by decide) (by decide)
  · exact patSafe_of_minLen (by decide)
  · -- env_secret: the mandatory equals sign
    exact @patSafe_of_lit _ "=".data '='
      (by simp [env_secret_toks]) (by decide) (by decide)

/-! ## Helper lemmas for the claims -/

lemma contains_append_singleton (l : List Char) (c a : Char) :
    (l ++ [c]).contains a = (l.contains a || (a == c)) := by
  show (l ++ [c]).elem a = (l.elem a || (a == c))
  induction l with
  | nil =>
    simp only [List.nil_append, List.elem_cons, List.elem_nil, Bool.or_false, Bool.false_or]
    cases a == c <;> rfl
  | cons x xs ih =>
    simp only [List.cons_append, List.elem_cons, ih]
    cases a == x <;> simp

lemma find?_eq_some_of_unique {α : Type} (l : List α) (pr : α → Bool) (a : α)
    (ha : a ∈ l) (hpa : pr a = true) (hu : ∀ b ∈ l, pr b = true → b = a) :
    l.find? pr = some a := by
  induction l with
  | nil => cases ha
  | cons x xs ih =>
    by_cases hx : pr x = true
    · rw [List.find?_cons_of_pos xs hx]
      exact congrArg some ((hu x (List.mem_cons_self x xs) hx).symm ▸ rfl)
    · rw [List.find?_cons_of_neg xs (by simpa using hx)]
      rcases List.mem_cons.mp ha with rfl | ha2
      · exact absurd hpa hx
      · exact ih ha2 (fun b hb hpb => hu b (List.mem_cons_of_mem x hb) hpb)

/-- No text starts with two distinct safe prefixes: none of the six is a
prefix of another. -/
lemma safePrefix_unique (t : String) :
    ∀ p ∈ safePrefixList, pyStartsWith t p = true →
    ∀ q ∈ safePrefixList, pyStartsWith t q = true → q = p := by
  intro p hp hps q hq hqs
  have h1 : p.data <+: t.data := List.isPrefixOf_iff_prefix.mp hps
  have h2 : q.data <+: t.data := List.isPrefixOf_iff_prefix.mp hqs
  have hd := List.prefix_or_prefix_of_prefix h2 h1
  have hpair : ∀ a ∈ safePrefixList, ∀ b ∈ safePrefixList,
      (a.data <+: b.data ∨ b.data <+: a.data) → a = b := by decide
  exact hpair q hq p hp hd

/-- The fold of `extDotSuffixSpec` computes the right split of the source. -/
lemma extDot_foldl_eq (l : List Char) :
    l.foldl
      (fun acc c =>
        match acc with
        | none => if c == '.' then some [] else none
        | some suf => if c == '.' then some [] else some (suf ++ [c]))
      none =
    if l.contains '.' then some (rsplitDotLast l) else none := by
  induction l using List.reverseRecOn with
  | nil => simp [rsplitDotLast]
  | append_singleton xs c ih =>
    rw [List.foldl_append, ih]
    by_cases hc : c = '.'
    · subst hc
      have hcontains : (xs ++ ['.']).contains '.' = true := by
        rw [contains_append_singleton]
        simp
      rw [hcontains]
      have hr : rsplitDotLast (xs ++ ['.']) = [] := by
        unfold rsplitDotLast
        rw [List.reverse_append]
        simp [List.takeWhile]
      rw [hr]
      by_cases hx : xs.contains '.' = true
      · rw [hx]; rfl
      · rw [Bool.not_eq_true] at hx; rw [hx]; rfl
    · have hcc : (c == '.') = false := by simpa using hc
      have hcontains : (xs ++ [c]).contains '.' = (xs.contains '.') := by
        rw [contains_append_singleton]
        have : ('.' == c) = false := by
          simp only [beq_eq_false_iff_ne, ne_eq]
          exact fun h => hc h.symm
        rw [this, Bool.or_false]
      rw [hcontains]
      have hr : rsplitDotLast (xs ++ [c]) = rsplitDotLast xs ++ [c] := by
        unfold rsplitDotLast
        rw [List.reverse_append]
        simp only [List.reverse_singleton, List.singleton_append, List.takeWhile_cons]
        rw [show (c != '.') = true by simpa using hc]
        simp
      rw [hr]
      by_cases hx : xs.contains '.' = true
      · rw [hx]
        simp only [List.foldl_cons, List.foldl_nil, hcc]
        rfl
      · rw [Bool.not_eq_true] at hx; rw [hx]
        simp only [List.foldl_cons, List.foldl_nil, hcc]
        rfl

lemma extDotSuffixSpec_eq (p : String) :
    extDotSuffixSpec p =
      if p.data.contains '.' then some (rsplitDotLast p.data) else none :=
  extDot_foldl_eq p.data

/-! ## Claim theorems -/

/-- C3: For every string `text` (and any budget): if `len(text) ≤ 8`,
`redact_secret` returns `"[REDACTED:" + fingerprint + "]"`, where the
fingerprint is the 8-hex-character hash of `text`; otherwise, if `text`
starts with one of the fixed prefixes `sk-`, `ghp`, `gho`, `AKIA`, `xox`,
`eyJ`, the result is that prefix followed by `"***[" + fingerprint + "]"`,
and if it starts with none of them the result is
`"***[" + fingerprint + "]"`. -/
theorem redact_secret_cases (text : String) (v : Int) :
    ((text_fingerprint text).length = 8 ∧
      ∀ c ∈ (text_fingerprint text).data, c ∈ hexCharList) ∧
    (text.length ≤ 8 →
      redact_secret text v = "[REDACTED:" ++ text_fingerprint text ++ "]") ∧
    (8 < text.length →
      (∀ pfx ∈ safePrefixList, pyStartsWith text pfx = true →
        redact_secret text v = pfx ++ "***[" ++ text_fingerprint text ++ "]") ∧
      ((∀ pfx ∈ safePrefixList, pyStartsWith text pfx = false) →
        redact_secret text v = "***[" ++ text_fingerprint text ++ "]")) := by
  refine ⟨⟨text_fingerprint_length text, text_fingerprint_chars text⟩, ?_, ?_⟩
  · intro h
    simp only [redact_secret]
    rw [if_pos h]
  · intro h8
    constructor
    · intro pfx hpm hps
      simp only [redact_secret]
      rw [if_neg (by omega)]
      rw [find?_eq_some_of_unique safePrefixList _ pfx hpm hps
            (fun q hq hqs => safePrefix_unique text pfx hpm hps q hq hqs)]
    · intro hall
      simp only [redact_secret]
      rw [if_neg (by omega)]
      rw [List.find?_eq_none.mpr (fun q hq => by simp [hall q hq])]

/-- Witness for C3 at concrete inputs covering all three branches. -/
theorem redact_secret_cases_witness :
    redact_secret "abc" 4 = "[REDACTED:" ++ text_fingerprint "abc" ++ "]" ∧
    redact_secret "sk-abcdefgh" 4 = "sk-" ++ "***[" ++ text_fingerprint "sk-abcdefgh" ++ "]" ∧
    redact_secret "zzzzzzzzzz" 4 = "***[" ++ text_fingerprint "zzzzzzzzzz" ++ "]" :=
  ⟨(redact_secret_cases "abc" 4).2.1 (by decide),
   ((redact_secret_cases "sk-abcdefgh" 4).2.2 (by decide)).1 "sk-"
     (by decide) (by decide),
   ((redact_secret_cases "zzzzzzzzzz" 4).2.2 (by decide)).2 (by decide)⟩

/-- C8: the `visible_chars` budget argument never changes the output of
`redact_secret`, and for long inputs the output reveals at most one
whitelisted safe prefix of the input, whatever the budget. -/
theorem redact_secret_budget_irrelevant :
    (∀ (text : String) (b1 b2 : Int), redact_secret text b1 = redact_secret text b2) ∧
    (∀ (text : String) (b : Int), 8 < text.length →
      (∃ pfx ∈ safePrefixList, pyStartsWith text pfx = true ∧
        redact_secret text b = pfx ++ "***[" ++ text_fingerprint text ++ "]") ∨
      redact_secret text b = "***[" ++ text_fingerprint text ++ "]") := by
  refine ⟨fun text b1 b2 => rfl, fun text b h8 => ?_⟩
  simp only [redact_secret]
  rw [if_neg (by omega)]
  cases hf : safePrefixList.find? (fun p => pyStartsWith text p) with
  | some pfx =>
    exact Or.inl ⟨pfx, List.mem_of_find?_eq_some hf, List.find?_some hf, rfl⟩
  | none => exact Or.inr rfl

/-- Witness for C8 at concrete budgets. -/
theorem redact_secret_budget_irrelevant_witness :
    redact_secret "sk-abcdefgh" (-3) = redact_secret "sk-abcdefgh" 99 ∧
    ((∃ pfx ∈ safePrefixList, pyStartsWith "ghp_0123456789" pfx = true ∧
        redact_secret "ghp_0123456789" 7 =
          pfx ++ "***[" ++ text_fingerprint "ghp_0123456789" ++ "]") ∨
      redact_secret "ghp_0123456789" 7 =
        "***[" ++ text_fingerprint "ghp_0123456789" ++ "]") :=
  ⟨redact_secret_budget_irrelevant.1 "sk-abcdefgh" (-3) 99,
   redact_secret_budget_irrelevant.2 "ghp_0123456789" 7 (by decide)⟩

/-- C7: `scan_content` is a total function on the embedded value domain,
and when the content argument is not a string it returns the empty list
of findings rather than failing. -/
theorem scan_content_nonstring_empty (v : PyVal) (fp ch : String)
    (h : isinstanceStr v = false) : scan_content v fp ch = [] := by
  cases v with
  | vstr s => simp [isinstanceStr] at h
  | vbytes bs => rfl
  | vnone => rfl
  | vint n => rfl
  | vbool b => rfl
  | vlist xs => rfl

/-- Witness for C7 at a concrete non-string value. -/
theorem scan_content_nonstring_empty_witness :
    isinstanceStr PyVal.vnone = false ∧ scan_content PyVal.vnone ".env" "abc" = [] :=
  ⟨rfl, scan_content_nonstring_empty PyVal.vnone ".env" "abc" rfl⟩

/-- C6: `get_file_risk_level` equals the spec's strict top-to-bottom rule:
`high` whenever `is_sensitive_file` holds (so `secrets.yml`, though it has
a medium-risk extension, classifies `high`); otherwise the extension —
the substring after the last dot — decides `high`/`medium`, and
everything else (including extensionless paths) is `low`. -/
theorem get_file_risk_level_refines_spec :
    (∀ p : String, get_file_risk_level p = riskLevelSpec p) ∧
    get_file_risk_level "secrets.yml" = "high" ∧
    is_sensitive_file "secrets.yml" = true ∧
    medium_risk_extensions.contains ".yml" = true := by
  refine ⟨?_, by decide, by decide, by decide⟩
  intro p
  unfold get_file_risk_level riskLevelSpec
  rw [extDotSuffixSpec_eq]
  by_cases hs : is_sensitive_file p = true
  · rw [if_pos hs, if_pos hs]
  · rw [if_neg hs, if_neg hs]
    cases hc : p.data.contains '.' with
    | true => rfl
    | false => rfl

/-- The single finding the scanner produces on the probe content
`"KEY=abc"` (an `env_secret` match of the whole 7-character content,
fully redacted because it is at most 8 characters long). -/
def envFindingKeyAbc : SecretFinding :=
  { pattern_name := "env_secret", description := "Environment Variable Secret",
    severity := "medium", file_path := "f", commit_hash := "h", line_number := some 1,
    matched_text := "[REDACTED:c5d64d95]", context := some "[REDACTED:c5d64d95]" }

/-- C9: every finding carries the `file_path` and `commit_hash` arguments
of the `scan_content` call verbatim. -/
theorem scan_content_stamps_path_and_commit (content : PyVal) (fp ch : String)
    (f : SecretFinding) (hf : f ∈ scan_content content fp ch) :
    f.file_path = fp ∧ f.commit_hash = ch := by
  cases content with
  | vstr s =>
    obtain ⟨pat, _, se, _, rfl⟩ := mem_scanStr.mp hf
    exact ⟨rfl, rfl⟩
  | vbytes bs => cases hf
  | vnone => cases hf
  | vint n => cases hf
  | vbool b => cases hf
  | vlist xs => cases hf

/-- Witness for C9 at a concrete call. -/
theorem scan_content_stamps_path_and_commit_witness :
    envFindingKeyAbc.file_path = "f" ∧ envFindingKeyAbc.commit_hash = "h" :=
  scan_content_stamps_path_and_commit (.vstr "KEY=abc") "f" "h" envFindingKeyAbc (by decide)

/-- C10: every finding the scanner emits has a present `line_number`, and
it is at least 1 (the absent case of the data model never occurs). -/
theorem scan_content_line_number_present (content : PyVal) (fp ch : String)
    (f : SecretFinding) (hf : f ∈ scan_content content fp ch) :
    ∃ n : Int, f.line_number = some n ∧ 1 ≤ n := by
  cases content with
  | vstr s =>
    obtain ⟨pat, _, se, _, rfl⟩ := mem_scanStr.mp hf
    refine ⟨((s.data.take se.1).count '\n' : Nat) + 1, rfl, ?_⟩
    omega
  | vbytes bs => cases hf
  | vnone => cases hf
  | vint n => cases hf
  | vbool b => cases hf
  | vlist xs => cases hf

/-- Witness for C10 at a concrete call. -/
theorem scan_content_line_number_present_witness :
    ∃ n : Int, envFindingKeyAbc.line_number = some n ∧ 1 ≤ n :=
  scan_content_line_number_present (.vstr "KEY=abc") "f" "h" envFindingKeyAbc (by decide)

/-- C5: for every content, each finding's `line_number` is 1 plus the
number of newline characters strictly before the start of its match span;
and on the spec's example `"a\nb\nsecret_here\n"` every finding reports
line 3 (no catalog pattern matches that content, so the scanner returns
no findings there at all and the instance holds vacuously). -/
theorem scan_content_line_number_formula :
    (∀ (content fp ch : String) (f : SecretFinding),
        f ∈ scan_content (.vstr content) fp ch →
        ∃ pat se, pat ∈ SECRET_PATTERNS ∧ se ∈ findIter pat.pattern content.data ∧
          matchSeq content.data pat.pattern se.1 = some se.2 ∧
          f.line_number = some (((content.data.take se.1).count '\n' : Nat) + 1)) ∧
    (∀ f ∈ scan_content (.vstr "a\nb\nsecret_here\n") "" "", f.line_number = some 3) := by
  constructor
  · intro content fp ch f hf
    obtain ⟨pat, hp, se, hse, rfl⟩ := mem_scanStr.mp hf
    exact ⟨pat, se, hp, hse, (mem_findIter hse).1, rfl⟩
  · intro f hf
    rw [show scan_content (.vstr "a\nb\nsecret_here\n") "" "" = [] from by decide] at hf
    cases hf

/-- Witness for C5 at a concrete call with a real finding. -/
theorem scan_content_line_number_formula_witness :
    ∃ pat se, pat ∈ SECRET_PATTERNS ∧ se ∈ findIter pat.pattern "KEY=abc".data ∧
      matchSeq "KEY=abc".data pat.pattern se.1 = some se.2 ∧
      envFindingKeyAbc.line_number =
        some ((("KEY=abc".data.take se.1).count '\n' : Nat) + 1) :=
  scan_content_line_number_formula.1 "KEY=abc" "f" "h" envFindingKeyAbc (by decide)

/-- C2: every finding's `matched_text` and `context` are the redactor's
output on the raw matched substring and its context window, and neither
field contains the raw matched substring verbatim (each pattern either
matches more characters than any redactor output holds, or forces a
character the redactor never emits). -/
theorem scan_content_no_leak (content fp ch : String) (f : SecretFinding)
    (hf : f ∈ scan_content (.vstr content) fp ch) :
    ∃ m ctx : String,
      f.matched_text = redact_secret m 4 ∧
      f.context = some (redact_secret ctx 10) ∧
      containsSubstr m.data content.data ∧
      ¬ containsSubstr m.data (redact_secret m 4).data ∧
      ¬ containsSubstr m.data (redact_secret ctx 10).data := by
  obtain ⟨pat, hp, ⟨a, b⟩, hse, rfl⟩ := mem_scanStr.mp hf
  obtain ⟨hmatch, halen⟩ := mem_findIter hse
  have hble : b ≤ content.data.length :=
    matchSeq_le_length content.data pat.pattern a b halen hmatch
  have hab : a ≤ b := matchSeq_le content.data pat.pattern a b hmatch
  have key : ∀ out : String, out.length ≤ 19 → (∀ c ∈ out.data, c ∈ redactAlphabet) →
      ¬ containsSubstr (sliceChars content.data a b) out.data := by
    intro out hlen19 hchars hcontain
    rcases all_patterns_safe pat hp content.data a b hmatch with hlen | hbad
    · have hmlen : (sliceChars content.data a b).length = b - a := by
        unfold sliceChars
        rw [List.length_take, List.length_drop]
        omega
      have hle := containsSubstr_length_le hcontain
      have hout : out.data.length ≤ 19 := hlen19
      omega
    · obtain ⟨idx, c, h1, h2, h3, hna⟩ := hbad
      have hcm : c ∈ sliceChars content.data a b := by
        unfold sliceChars
        have hidx : ((content.data.drop a).take (b - a))[idx - a]? = some c := by
          rw [List.getElem?_take, if_pos (by omega), List.getElem?_drop]
          rw [show a + (idx - a) = idx from by omega]
          exact h3
        obtain ⟨hlt, heq⟩ := List.getElem?_eq_some.mp hidx
        exact heq ▸ List.getElem_mem hlt
      exact hna (hchars c (containsSubstr_mem hcontain hcm))
  refine ⟨String.mk (sliceChars content.data a b), _, rfl, rfl, ?_, ?_, ?_⟩
  · refine ⟨content.data.take a, content.data.drop b, ?_⟩
    unfold sliceChars
    rw [List.append_assoc]
    have h2 : (content.data.drop a).drop (b - a) = content.data.drop b := by
      rw [List.drop_drop]
      congr 1
      omega
    rw [← h2, List.take_append_drop, List.take_append_drop]
  · exact key _ (redact_secret_length_le _ 4) (redact_secret_chars _ 4)
  · exact key _ (redact_secret_length_le _ 10) (redact_secret_chars _ 10)

/-- Witness for C2 at a concrete call with a real finding. -/
theorem scan_content_no_leak_witness :
    ∃ m ctx : String,
      envFindingKeyAbc.matched_text = redact_secret m 4 ∧
      envFindingKeyAbc.context = some (redact_secret ctx 10) ∧
      containsSubstr m.data "KEY=abc".data ∧
      ¬ containsSubstr m.data (redact_secret m 4).data ∧
      ¬ containsSubstr m.data (redact_secret ctx 10).data :=
  scan_content_no_leak "KEY=abc" "f" "h" envFindingKeyAbc (by decide)

/-! ## Building matches (for the detection claim) -/

lemma matchSeq_isSome_alts (s : List Char) (ts : List Tok) (i : Nat) (ci : Bool)
    (ss : List (List Char)) (a : List Char) (ha : a ∈ ss) (hla : litAt ci a s i = true)
    (hrest : (matchSeq s ts (i + a.length)).isSome) :
    (matchSeq s (Tok.alts ci ss :: ts) i).isSome := by
  rw [matchSeq]
  apply findSome?_isSome_of_mem ha
  rw [if_pos hla]
  exact hrest

lemma matchSeq_isSome_cls (s : List Char) (ts : List Tok) (i : Nat)
    (p : Char → Bool) (lo : Nat) (hi : Option Nat) (k : Nat)
    (hlo : lo ≤ k) (hhi : ∀ h ∈ hi, k ≤ h) (hrun : k ≤ runLen p s i)
    (hrest : (matchSeq s ts (i + k)).isSome) :
    (matchSeq s (Tok.cls p lo hi :: ts) i).isSome := by
  simp only [matchSeq]
  have htop : k ≤ min (hi.getD (runLen p s i)) (runLen p s i) := by
    cases hi with
    | none => simpa using hrun
    | some h0 =>
      simp only [Option.getD_some]
      exact le_min (hhi h0 rfl) hrun
  rw [if_neg (by omega)]
  exact findSome?_isSome_of_mem (descRange_mem hlo htop) hrest

/-- A case-insensitive literal matches where the text holds any
same-lowercase word. -/
lemma litAt_ci_append (pre kw a rest : List Char) (hlen : kw.length = a.length)
    (hlow : kw.map pyLower = a.map pyLower) :
    litAt true a (pre ++ (kw ++ rest)) pre.length = true := by
  unfold litAt
  rw [if_pos rfl, List.drop_left, ← hlen, List.take_left, hlow]
  exact beq_self_eq_true _

/-- One step along a decomposed text: dropping a further leading block. -/
lemma drop_step (l l1 l2 : List Char) (n : Nat) (h : l.drop n = l1 ++ l2) :
    l.drop (n + l1.length) = l2 := by
  rw [← List.drop_drop, h, List.drop_left]

/-- C4 (as the code implements it): any content containing one of the
case-insensitive keywords `aws_secret`, `secret_key` or `secret_access`
followed — up to an optional quote and optional whitespace — by `=` or
`:` and then, again up to optional whitespace and an optional quote, a
run of at least 40 base64-like characters, yields an `aws_secret_key`
finding of severity `high`. -/
theorem scan_content_aws_secret_key_detects
    (pre kw quo1 ws1 : List Char) (sepc : Char) (ws2 quo2 val post : List Char)
    (fp ch : String)
    (hkw : kw.map pyLower = "aws_secret".data ∨ kw.map pyLower = "secret_key".data ∨
           kw.map pyLower = "secret_access".data)
    (hquo1 : quo1 = [] ∨ ∃ q, quo1 = [q] ∧ isQuoteCh q = true)
    (hws1 : ∀ c ∈ ws1, pyIsSpace c = true)
    (hsep : sepc = '=' ∨ sepc = ':')
    (hws2 : ∀ c ∈ ws2, pyIsSpace c = true)
    (hquo2 : quo2 = [] ∨ ∃ q, quo2 = [q] ∧ isQuoteCh q = true)
    (hvlen : 40 ≤ val.length)
    (hv40 : ∀ c ∈ val.take 40, isB64 c = true) :
    ∃ f ∈ scan_content
        (.vstr (String.mk (pre ++ (kw ++ (quo1 ++ (ws1 ++
          (sepc :: (ws2 ++ (quo2 ++ (val ++ post)))))))))) fp ch,
      f.pattern_name = "aws_secret_key" ∧ f.severity = "high" := by
  set s : List Char := pre ++ (kw ++ (quo1 ++ (ws1 ++
    (sepc :: (ws2 ++ (quo2 ++ (val ++ post))))))) with hsdef
  have hd0 : s.drop pre.length =
      kw ++ (quo1 ++ (ws1 ++ (sepc :: (ws2 ++ (quo2 ++ (val ++ post)))))) := by
    rw [hsdef]
    exact List.drop_left pre _
  have hd1 : s.drop (pre.length + kw.length) =
      quo1 ++ (ws1 ++ (sepc :: (ws2 ++ (quo2 ++ (val ++ post))))) :=
    drop_step s kw _ pre.length hd0
  have hd2 : s.drop (pre.length + kw.length + quo1.length) =
      ws1 ++ (sepc :: (ws2 ++ (quo2 ++ (val ++ post)))) :=
    drop_step s quo1 _ _ hd1
  have hd3 : s.drop (pre.length + kw.length + quo1.length + ws1.length) =
      sepc :: (ws2 ++ (quo2 ++ (val ++ post))) :=
    drop_step s ws1 _ _ hd2
  have hd4 : s.drop (pre.length + kw.length + quo1.length + ws1.length + 1) =
      ws2 ++ (quo2 ++ (val ++ post)) :=
    drop_step s [sepc] _ _ hd3
  have hd5 : s.drop (pre.length + kw.length + quo1.length + ws1.length + 1 + ws2.length) =
      quo2 ++ (val ++ post) :=
    drop_step s ws2 _ _ hd4
  have hd6 : s.drop
      (pre.length + kw.length + quo1.length + ws1.length + 1 + ws2.length + quo2.length) =
      val ++ post :=
    drop_step s quo2 _ _ hd5
  have hq1le : quo1.length ≤ 1 := by
    rcases hquo1 with rfl | ⟨q, rfl, _⟩
    · exact Nat.zero_le _
    · exact Nat.le_refl 1
  have hq2le : quo2.length ≤ 1 := by
    rcases hquo2 with rfl | ⟨q, rfl, _⟩
    · exact Nat.zero_le _
    · exact Nat.le_refl 1
  have hrunQ1 : quo1.length ≤ runLen isQuoteCh s (pre.length + kw.length) := by
    rcases hquo1 with rfl | ⟨q, rfl, hq⟩
    · exact Nat.zero_le _
    · show 1 ≤ runLenAux isQuoteCh (s.drop (pre.length + kw.length))
      rw [hd1, List.singleton_append, runLenAux, if_pos hq]
      omega
  have hrunW1 : ws1.length ≤
      runLen pyIsSpace s (pre.length + kw.length + quo1.length) := by
    show ws1.length ≤ runLenAux pyIsSpace (s.drop (pre.length + kw.length + quo1.length))
    rw [hd2]
    apply runLenAux_ge pyIsSpace ws1.length
    · rw [List.length_append]
      omega
    · rw [List.take_left]
      exact hws1
  have hrun1 : 1 ≤
      runLen isEqColon s (pre.length + kw.length + quo1.length + ws1.length) := by
    show 1 ≤ runLenAux isEqColon
      (s.drop (pre.length + kw.length + quo1.length + ws1.length))
    rw [hd3, runLenAux]
    rcases hsep with rfl | rfl
    · rw [if_pos (by decide)]
      omega
    · rw [if_pos (by decide)]
      omega
  have hrunW2 : ws2.length ≤
      runLen pyIsSpace s (pre.length + kw.length + quo1.length + ws1.length + 1) := by
    show ws2.length ≤ runLenAux pyIsSpace
      (s.drop (pre.length + kw.length + quo1.length + ws1.length + 1))
    rw [hd4]
    apply runLenAux_ge pyIsSpace ws2.length
    · rw [List.length_append]
      omega
    · rw [List.take_left]
      exact hws2
  have hrunQ2 : quo2.length ≤ runLen isQuoteCh s
      (pre.length + kw.length + quo1.length + ws1.length + 1 + ws2.length) := by
    rcases hquo2 with rfl | ⟨q, rfl, hq⟩
    · exact Nat.zero_le _
    · show 1 ≤ runLenAux isQuoteCh
        (s.drop (pre.length + kw.length + quo1.length + ws1.length + 1 + ws2.length))
      rw [hd5, List.singleton_append, runLenAux, if_pos hq]
      omega
  have hrun40 : 40 ≤ runLen isB64 s
      (pre.length + kw.length + quo1.length + ws1.length + 1 + ws2.length + quo2.length) := by
    show 40 ≤ runLenAux isB64 (s.drop
      (pre.length + kw.length + quo1.length + ws1.length + 1 + ws2.length + quo2.length))
    rw [hd6]
    apply runLenAux_ge isB64 40 (val ++ post)
    · rw [List.length_append]
      omega
    · rw [List.take_append_of_le_length hvlen]
      exact hv40
  have hmatch : (matchSeq s aws_secret_key_toks pre.length).isSome := by
    obtain ⟨a, ha, hlow⟩ :
        ∃ a ∈ ["aws_secret".data, "secret_key".data, "secret_access".data],
          kw.map pyLower = a := by
      rcases hkw with h | h | h
      · exact ⟨"aws_secret".data, by simp, h⟩
      · exact ⟨"secret_key".data, by simp, h⟩
      · exact ⟨"secret_access".data, by simp, h⟩
    have halow : a.map pyLower = a := by
      have hall : ∀ x ∈ ["aws_secret".data, "secret_key".data, "secret_access".data],
          x.map pyLower = x := by decide
      exact hall a ha
    have hlen : kw.length = a.length := by
      have := congrArg List.length hlow
      simpa using this
    apply matchSeq_isSome_alts s _ pre.length true _ a ha
    · rw [hsdef]
      exact litAt_ci_append pre kw a _ hlen (by rw [hlow, halow])
    · rw [show pre.length + a.length = pre.length + kw.length from by omega]
      -- optional quote before the separator: `quo1.length` characters
      apply matchSeq_isSome_cls s _ _ isQuoteCh 0 (some 1) quo1.length (Nat.zero_le _)
        (fun h0 hh0 => by cases hh0; exact hq1le) hrunQ1
      -- whitespace before the separator: `ws1.length` characters
      apply matchSeq_isSome_cls s _ _ pyIsSpace 0 none ws1.length (Nat.zero_le _)
        (fun _ h => nomatch h) hrunW1
      -- the separator: exactly one character
      apply matchSeq_isSome_cls s _ _ isEqColon 1 (some 1) 1 (Nat.le_refl 1)
        (fun h0 hh0 => by cases hh0; exact Nat.le_refl 1) hrun1
      -- whitespace after the separator: `ws2.length` characters
      apply matchSeq_isSome_cls s _ _ pyIsSpace 0 none ws2.length (Nat.zero_le _)
        (fun _ h => nomatch h) hrunW2
      -- optional quote before the value: `quo2.length` characters
      apply matchSeq_isSome_cls s _ _ isQuoteCh 0 (some 1) quo2.length (Nat.zero_le _)
        (fun h0 hh0 => by cases hh0; exact hq2le) hrunQ2
      -- the 40-character value
      apply matchSeq_isSome_cls s _ _ isB64 40 (some 40) 40 (Nat.le_refl 40)
        (fun h0 hh0 => by cases hh0; exact Nat.le_refl 40) hrun40
      -- trailing optional quote, then the end of the pattern
      apply matchSeq_isSome_cls s _ _ isQuoteCh 0 (some 1) 0 (Nat.le_refl 0)
        (fun _ _ => Nat.zero_le _) (Nat.zero_le _)
      simp [matchSeq]
  obtain ⟨e, he⟩ := Option.isSome_iff_exists.mp hmatch
  have hple : pre.length ≤ s.length := by
    rw [hsdef]
    simp only [List.length_append, List.length_cons]
    omega
  obtain ⟨se, hse⟩ :=
    List.exists_mem_of_ne_nil _ (findIter_ne_nil hple he)
  refine ⟨mkFinding ⟨"aws_secret_key", aws_secret_key_toks, "AWS Secret Key", "high"⟩
      s fp ch se, ?_, rfl, rfl⟩
  show _ ∈ scanStr (String.mk s) fp ch
  apply mem_scanStr.mpr
  exact ⟨_, List.Mem.tail _ (List.Mem.head _), se, hse, rfl⟩

/-- Witness for C4 at a concrete content exercising the whitespace
allowance on both sides of the separator. -/
theorem scan_content_aws_secret_key_detects_witness :
    ∃ f ∈ scan_content
        (.vstr (String.mk ([] ++ ("SECRET_KEY".data ++ ([] ++ ([' '] ++
          ('=' :: ([' '] ++ ([] ++ (List.replicate 40 'A' ++ [])))))))))) "" "",
      f.pattern_name = "aws_secret_key" ∧ f.severity = "high" :=
  scan_content_aws_secret_key_detects [] "SECRET_KEY".data [] [' '] '=' [' '] []
    (List.replicate 40 'A') [] "" ""
    (Or.inr (Or.inl (by decide))) (Or.inl rfl) (by decide) (Or.inl rfl) (by decide)
    (Or.inl rfl) (by decide) (by decide)

/-- Counterexample to C4 as the claim words it: the bare keyword `secret`
(not in the rule's alternation `aws_secret|secret_key|secret_access`)
followed by `=` and a 40-character base64-like value produces no
`aws_secret_key` finding (the content only triggers `env_secret`). -/
theorem scan_content_plain_secret_keyword_counterexample :
    (scan_content (.vstr "secret=AAAAAAAAAAAAAAAAAAAAAAAAAAAAAAAAAAAAAAAA") "" "").all
      (fun f => f.pattern_name != "aws_secret_key") = true ∧
    (scan_content (.vstr "secret=AAAAAAAAAAAAAAAAAAAAAAAAAAAAAAAAAAAAAAAA") "" "").length = 1 ∧
    ("secret=AAAAAAAAAAAAAAAAAAAAAAAAAAAAAAAAAAAAAAAA" : String) =
      "secret" ++ "=" ++ String.mk (List.replicate 40 'A') := by decide

/-- The end-to-end scenario content of the spec. -/
def c1content : String :=
  "OPENAI_API_KEY=sk-1234567890123456789012345678901234567890123456789\n"

/-- The OpenAI-style key inside `c1content` (49 alphanumerics after `sk-`). -/
def c1key : String := "sk-1234567890123456789012345678901234567890123456789"

/-- The whole assignment line, which the `env_secret` rule also matches. -/
def c1envmatch : String :=
  "OPENAI_API_KEY=sk-1234567890123456789012345678901234567890123456789"

/-- Counterexample to C1 as stated: the scan does not return exactly one
finding on the end-to-end scenario input. -/
theorem scan_c1_not_single_finding :
    ¬ (scan_content (.vstr c1content) ".env" "abc123").length = 1 := by decide

/-- C1 as amended: the scenario yields exactly two findings — the
`openai_api_key` one (severity `high`, line 1, matched text
`sk-***[` + fingerprint + `]`, never containing the literal key) and an
`env_secret` one (severity `medium`) for the whole assignment line. -/
theorem scan_c1_two_findings :
    scan_content (.vstr c1content) ".env" "abc123" =
      [{ pattern_name := "openai_api_key", description := "OpenAI API Key",
         severity := "high", file_path := ".env", commit_hash := "abc123",
         line_number := some 1, matched_text := "sk-***[75b74e5d]",
         context := some "***[3849d776]" },
       { pattern_name := "env_secret", description := "Environment Variable Secret",
         severity := "medium", file_path := ".env", commit_hash := "abc123",
         line_number := some 1, matched_text := "***[2d47a26c]",
         context := some "***[3849d776]" }] ∧
    "sk-***[75b74e5d]" = "sk-" ++ "***[" ++ text_fingerprint c1key ++ "]" ∧
    ¬ containsSubstr c1key.data "sk-***[75b74e5d]".data ∧
    ¬ containsSubstr c1key.data "***[3849d776]".data ∧
    redact_secret c1key 4 = "sk-***[75b74e5d]" ∧
    redact_secret c1envmatch 4 = "***[2d47a26c]" := by decide
